import Mathlib

/-!
# Verification of the ns-scheduler scale state machine

A shallow embedding of `src/nsscheduler/updown.py`: the scale transition
engine (`modify_workload`), the batch throttler (`wait_on_batch_full`),
the namespace resolver (`resolve_namespaces`) and the state aggregator
(`get_state`), together with proofs of the spec's testable properties.

Python's `int(...)` on a string and `str(...)` on an integer are modelled
by `pyInt` and `str_of_int`; Python's exceptions (an uncaught `ValueError`
from `int`, or from `parse_quantity`) are modelled by `Option`, `none`
standing for a crash of the call.
-/

/-! ## Python `int` and `str` on decimal strings -/

/-- The six characters Python's `str.strip` and `int` treat as whitespace. -/
def isPySpace (c : Char) : Bool :=
  c = ' ' || c = '\t' || c = '\n' || c = '\r' || c = '\x0b' || c = '\x0c'

/-- The numeric value of a decimal digit character, `none` for any other
character. -/
def digitVal (c : Char) : Option Nat :=
  if '0' ≤ c ∧ c ≤ '9' then some (c.toNat - 48) else none

/-- Left-to-right accumulation of a digit run; fails on the first
non-digit character, and returns the accumulator on the empty run. -/
def digitsToNatCore : List Char → Nat → Option Nat
  | [], acc => some acc
  | c :: cs, acc =>
    match digitVal c with
    | some d => digitsToNatCore cs (acc * 10 + d)
    | none => none

/-- The value of a non-empty run of decimal digits; `none` on the empty
list or on any non-digit character. -/
def digitsToNat (l : List Char) : Option Nat :=
  match l with
  | [] => none
  | _ :: _ => digitsToNatCore l 0

/-- Python `int(s)` on a string, modelled for decimal literals: strip
whitespace, an optional sign, then a non-empty digit run; anything else
raises `ValueError`, modelled as `none`. -/
def pyIntChars : List Char → Option Int
  | [] => none
  | c :: cs =>
    if c = '-' then (digitsToNat cs).map fun n => -(n : Int)
    else if c = '+' then (digitsToNat cs).map fun n => (n : Int)
    else (digitsToNat (c :: cs)).map fun n => (n : Int)

/-- Strip leading and trailing Python whitespace. -/
def pyStrip (l : List Char) : List Char :=
  ((l.dropWhile isPySpace).reverse.dropWhile isPySpace).reverse

/-- Python `int(s)` for a string `s`, modelled as above. -/
def pyInt (s : String) : Option Int :=
  pyIntChars (pyStrip s.data)

/-- The decimal digits of `n`, most significant first, by fuel recursion
(the fuel `n + 1` always suffices). -/
def natToDigitsAux : Nat → Nat → List Char
  | 0, _ => []
  | fuel + 1, n =>
    if n < 10 then [Char.ofNat (48 + n)]
    else natToDigitsAux fuel (n / 10) ++ [Char.ofNat (48 + n % 10)]

/-- The decimal digits of `n`, most significant first. -/
def natToDigits (n : Nat) : List Char :=
  natToDigitsAux (n + 1) n

/-- Python `str(z)` for an integer `z`: decimal digits, `'-'`-prefixed
when negative. -/
def str_of_int (z : Int) : String :=
  if z < 0 then ⟨'-' :: natToDigits (-z).toNat⟩ else ⟨natToDigits z.toNat⟩

theorem digitVal_digit {n : Nat} (h : n < 10) :
    digitVal (Char.ofNat (48 + n)) = some n := by
  interval_cases n <;> decide

theorem digit_not_space {n : Nat} (h : n < 10) :
    isPySpace (Char.ofNat (48 + n)) = false := by
  interval_cases n <;> decide

theorem digit_ne_minus {n : Nat} (h : n < 10) :
    Char.ofNat (48 + n) ≠ '-' := by
  interval_cases n <;> decide

theorem digit_ne_plus {n : Nat} (h : n < 10) :
    Char.ofNat (48 + n) ≠ '+' := by
  interval_cases n <;> decide

theorem natToDigitsAux_ne_nil (fuel n : Nat) (h : 0 < fuel) :
    natToDigitsAux fuel n ≠ [] := by
  cases fuel with
  | zero => exact absurd h (by omega)
  | succ fuel =>
    rw [natToDigitsAux]
    split
    · exact List.cons_ne_nil _ _
    · exact List.append_ne_nil_of_right_ne_nil _ (List.cons_ne_nil _ _)

theorem natToDigitsAux_digits (fuel : Nat) :
    ∀ n, n < fuel → ∀ c ∈ natToDigitsAux fuel n, ∃ d, d < 10 ∧ c = Char.ofNat (48 + d) := by
  induction fuel with
  | zero => intro n h; omega
  | succ fuel ih =>
    intro n hn c hc
    rw [natToDigitsAux] at hc
    by_cases h10 : n < 10
    · rw [if_pos h10, List.mem_singleton] at hc
      exact ⟨n, h10, hc⟩
    · rw [if_neg h10, List.mem_append] at hc
      rcases hc with hc | hc
      · exact ih (n / 10) (by omega) c hc
      · rw [List.mem_singleton] at hc
        exact ⟨n % 10, Nat.mod_lt _ (by omega), hc⟩

theorem natToDigitsAux_head (fuel : Nat) :
    ∀ n, n < fuel → ∃ d t, d < 10 ∧ natToDigitsAux fuel n = Char.ofNat (48 + d) :: t := by
  induction fuel with
  | zero => intro n h; omega
  | succ fuel ih =>
    intro n hn
    rw [natToDigitsAux]
    by_cases h10 : n < 10
    · exact ⟨n, [], h10, by rw [if_pos h10]⟩
    · obtain ⟨d, t, hd, ht⟩ := ih (n / 10) (by omega)
      exact ⟨d, t ++ [Char.ofNat (48 + n % 10)], hd, by rw [if_neg h10, ht]; rfl⟩

theorem digitsToNatCore_append (l₁ l₂ : List Char) (acc : Nat) :
    digitsToNatCore (l₁ ++ l₂) acc =
      match digitsToNatCore l₁ acc with
      | some m => digitsToNatCore l₂ m
      | none => none := by
  induction l₁ generalizing acc with
  | nil => rfl
  | cons c cs ih =>
    rw [List.cons_append, digitsToNatCore, digitsToNatCore]
    cases digitVal c with
    | none => rfl
    | some d => exact ih _

theorem digitsToNatCore_natToDigitsAux (fuel : Nat) :
    ∀ n acc, n < fuel →
      digitsToNatCore (natToDigitsAux fuel n) acc =
        some (acc * 10 ^ (natToDigitsAux fuel n).length + n) := by
  induction fuel with
  | zero => intro n acc h; omega
  | succ fuel ih =>
    intro n acc hn
    rw [natToDigitsAux]
    by_cases h10 : n < 10
    · rw [if_pos h10]
      simp only [digitsToNatCore, digitVal_digit h10]
      simp [pow_one]
    · rw [if_neg h10]
      rw [digitsToNatCore_append, ih (n / 10) acc (by omega)]
      simp only [digitsToNatCore, digitVal_digit (Nat.mod_lt _ (by omega))]
      rw [List.length_append, List.length_singleton, pow_succ]
      congr 1
      rw [← mul_assoc]
      have hdm : 10 * (n / 10) + n % 10 = n := Nat.div_add_mod n 10
      generalize natToDigitsAux fuel (n / 10) = A at *
      generalize hq : n / 10 = q at *
      generalize hr : n % 10 = r at *
      generalize hB : acc * 10 ^ A.length = B
      omega

theorem digitsToNat_natToDigits (n : Nat) :
    digitsToNat (natToDigits n) = some n := by
  have hne := natToDigitsAux_ne_nil (n + 1) n (by omega)
  rw [natToDigits] at *
  cases h : natToDigitsAux (n + 1) n with
  | nil => exact absurd h hne
  | cons c cs =>
    rw [digitsToNat, ← h, digitsToNatCore_natToDigitsAux (n + 1) n 0 (by omega)]
    simp

theorem pyStrip_of_no_space (l : List Char) (h : ∀ c ∈ l, isPySpace c = false) :
    pyStrip l = l := by
  have drop : ∀ m : List Char, (∀ c ∈ m, isPySpace c = false) → m.dropWhile isPySpace = m := by
    intro m hm
    cases m with
    | nil => rfl
    | cons c cs => simp [List.dropWhile_cons, hm c (List.mem_cons_self _ _)]
  rw [pyStrip, drop l h, drop l.reverse (fun c hc => h c (List.mem_reverse.mp hc)),
    List.reverse_reverse]

theorem pyInt_str_of_int (z : Int) : pyInt (str_of_int z) = some z := by
  by_cases hz : z < 0
  · rw [str_of_int, if_pos hz, pyInt]
    have hstrip : pyStrip ('-' :: natToDigits (-z).toNat) = '-' :: natToDigits (-z).toNat := by
      apply pyStrip_of_no_space
      intro c hc
      rcases List.mem_cons.mp hc with rfl | hc
      · decide
      · obtain ⟨d, hd, rfl⟩ :=
          natToDigitsAux_digits ((-z).toNat + 1) (-z).toNat (by omega) c hc
        exact digit_not_space hd
    show pyIntChars (pyStrip ('-' :: natToDigits (-z).toNat)) = some z
    rw [hstrip, pyIntChars, if_pos rfl, digitsToNat_natToDigits]
    have : ((-z).toNat : Int) = -z := Int.toNat_of_nonneg (by omega)
    simp [this]
  · rw [str_of_int, if_neg hz, pyInt]
    have hstrip : pyStrip (natToDigits z.toNat) = natToDigits z.toNat := by
      apply pyStrip_of_no_space
      intro c hc
      obtain ⟨d, hd, rfl⟩ :=
        natToDigitsAux_digits (z.toNat + 1) z.toNat (by omega) c hc
      exact digit_not_space hd
    show pyIntChars (pyStrip (natToDigits z.toNat)) = some z
    rw [hstrip]
    obtain ⟨d, t, hd, ht⟩ := natToDigitsAux_head (z.toNat + 1) z.toNat (by omega)
    have ht' : natToDigits z.toNat = Char.ofNat (48 + d) :: t := ht
    rw [ht', pyIntChars, if_neg (digit_ne_minus hd), if_neg (digit_ne_plus hd), ← ht',
      digitsToNat_natToDigits]
    have : (z.toNat : Int) = z := Int.toNat_of_nonneg (by omega)
    simp [this]

/-! ## Data model

A `Workload` is the projection of a Deployment or StatefulSet that
`updown.py` reads: `spec.replicas`, the value of the
`ns.scheduler/replicas` annotation (`none` when the key is absent from
`metadata.annotations`), and the containers of the pod template with
their resource requests. -/

/-- `container.resources.requests`, as read by `get_state`: the values at
the `"memory"` and `"cpu"` keys, `none` when the key is absent. -/
structure ResourceRequests where
  memory : Option String
  cpu : Option String
deriving DecidableEq, Repr

/-- A container of a workload's pod template; `requests = none` models a
falsy `c.resources.requests` (`None` or the empty dict), which the
aggregation loop skips. -/
structure Container where
  requests : Option ResourceRequests
deriving DecidableEq, Repr

/-- The fields of a Deployment or StatefulSet that `updown.py` touches. -/
structure Workload where
  replicas : Int
  savedReplicas : Option String
  containers : List Container
deriving DecidableEq, Repr

/-- The two directions of `NamespaceAction` in the source. -/
inductive NamespaceAction
  | UP
  | DOWN
deriving DecidableEq, Repr

/-- The patch that `modify_workload` builds: `ann` is the value written to
the `ns.scheduler/replicas` annotation by the `"metadata"` part (absent
when `none`), `spec` the replica count written by the `"spec"` part. -/
structure WorkloadPatch where
  ann : Option String
  spec : Option Int
deriving DecidableEq, Repr

/-- The Python dict truthiness of the patch: the source calls the updater
exactly when the patch dict is non-empty. -/
def WorkloadPatch.isEmpty (p : WorkloadPatch) : Bool :=
  p.ann = none && p.spec = none

/-! ## ScaleTransitionEngine: `modify_workload` -/

/-- `modify_workload(action, workload, ...)` from the source, returning the
patch it hands to the updater. `none` models the uncaught `ValueError`
raised by line 174, `int(workload.metadata.annotations.get(updown_annotation, 1))`,
when the annotation is present but not an integer literal (the `.get`
default `1` is the Python int `1`, parsed by no one). -/
def modify_workload (action : NamespaceAction) (w : Workload) : Option WorkloadPatch :=
  let current_replicas := w.replicas
  match (match w.savedReplicas with
         | some s => pyInt s
         | none => some 1) with
  | none => none
  | some before_down_replicas =>
    let desired_replicas :=
      if action = NamespaceAction.DOWN then 0
      else if action = NamespaceAction.UP ∧ current_replicas = 0 then before_down_replicas
      else current_replicas
    let annPatch : Option String :=
      if action = NamespaceAction.DOWN ∧
          (current_replicas > 0 ∨ w.savedReplicas = none) then
        some (str_of_int current_replicas)
      else none
    let specPatch : Option Int :=
      if current_replicas ≠ desired_replicas then some desired_replicas else none
    some { ann := annPatch, spec := specPatch }

/-- The effect on the cluster object of the patch `modify_workload` sends:
a strategic-merge patch sets the annotation key when the `"metadata"` part
is present and the replica count when the `"spec"` part is present.
Containers are untouched. -/
def applyPatch (w : Workload) (p : WorkloadPatch) : Workload :=
  { replicas := p.spec.getD w.replicas
    savedReplicas :=
      match p.ann with
      | some v => some v
      | none => w.savedReplicas
    containers := w.containers }

/-- One full `modify_workload` call observed through the cluster: the
workload after the patch (unchanged when the patch is empty and the
updater is not called), `none` when the call raises. -/
def step (action : NamespaceAction) (w : Workload) : Option Workload :=
  (modify_workload action w).map (applyPatch w)

/-! ## BatchThrottler: `wait_on_batch_full` -/

/-- `wait_on_batch_full(ns, batch_size, batch_interval)` from the source.
The global dict `scale_up_counters` is passed and returned explicitly as a
total function (`.get(ns, 0)` semantics); the returned Bool records
whether the call slept for `batch_interval` seconds. -/
def wait_on_batch_full (ns : String) (batch_size batch_interval : Int)
    (scale_up_counters : String → Int) : (String → Int) × Bool :=
  let c := scale_up_counters ns + 1
  let counters' : String → Int := fun k => if k = ns then c else scale_up_counters k
  if c > batch_size ∧ batch_interval > 0 then
    (fun k => if k = ns then 1 else counters' k, true)
  else
    (counters', false)

/-! ## Claims about the transition engine and the throttler -/

/-- Claim C1: for every workload with `currentReplicas = N > 0` and no
saved-replicas annotation, DOWN (which stamps the annotation with `N` and
sets replicas to 0) followed by UP restores `currentReplicas` to exactly
`N`. -/
theorem down_then_up_restores (w : Workload) (h0 : 0 < w.replicas)
    (h1 : w.savedReplicas = none) :
    ∃ w', step NamespaceAction.DOWN w = some w' ∧
      ∃ w'', step NamespaceAction.UP w' = some w'' ∧ w''.replicas = w.replicas := by
  obtain ⟨r, a, c⟩ := w
  simp only at h0 h1
  subst h1
  refine ⟨⟨0, some (str_of_int r), c⟩, ?_, ⟨r, some (str_of_int r), c⟩, ?_, rfl⟩
  · simp [step, modify_workload, applyPatch, h0, h0.ne']
  · simp [step, modify_workload, applyPatch, pyInt_str_of_int, h0.ne]

theorem down_then_up_restores_witness :
    0 < (⟨3, none, []⟩ : Workload).replicas ∧
    (∃ w', step NamespaceAction.DOWN ⟨3, none, []⟩ = some w' ∧
      ∃ w'', step NamespaceAction.UP w' = some w'' ∧
        w''.replicas = (⟨3, none, []⟩ : Workload).replicas) :=
  ⟨by decide, down_then_up_restores ⟨3, none, []⟩ (by decide) rfl⟩

/-- Claim C2 (code bug): the spec requires the UP transition not to crash
on a malformed saved-replicas annotation and to fall back to 1 restored
replica for a stopped workload, but line 174 of the source applies
Python's `int` to the raw annotation value before any branch, so
`int("abc")` raises an uncaught `ValueError` and the call produces no
patch at all: the embedded call evaluates to `none`. -/
theorem up_malformed_saved_crashes :
    modify_workload NamespaceAction.UP ⟨0, some "abc", []⟩ = none := by decide

/-- Claim C3 (code bug): the docstring of `up` and the spec promise that
`batch_size == 0` disables batching, yet with `batch_size = 0` and
`batch_interval = 5` the very first call for a fresh namespace already
increments the counter to 1, satisfies `1 > 0 and 5 > 0`, and sleeps. -/
theorem batch_size_zero_still_pauses :
    (wait_on_batch_full "ns1" 0 5 (fun _ => 0)).2 = true := by decide

/-- Claim C4: for every workload whose saved-replicas annotation holds a
non-zero integer, DOWN never overwrites the stored value with `"0"`: the
annotation patch is only produced when `currentReplicas > 0` (the
annotation being present), and the resulting annotation is never `"0"`. -/
theorem down_keeps_nonzero_saved (w : Workload) (v : String) (k : Int)
    (hv : w.savedReplicas = some v) (hk : pyInt v = some k) (h0 : k ≠ 0) :
    ∃ p, modify_workload NamespaceAction.DOWN w = some p ∧
      (p.ann ≠ none → 0 < w.replicas) ∧
      (applyPatch w p).savedReplicas ≠ some "0" := by
  obtain ⟨r, a, c⟩ := w
  simp only at hv
  subst hv
  by_cases hr : (0 : Int) < r
  · refine ⟨⟨some (str_of_int r), if r ≠ 0 then some 0 else none⟩, ?_, fun _ => hr, ?_⟩
    · simp [modify_workload, hk, hr]
    · simp only [applyPatch]
      intro hcontra
      simp only [Option.some.injEq] at hcontra
      have : pyInt (str_of_int r) = pyInt "0" := by rw [hcontra]
      rw [pyInt_str_of_int] at this
      have h0' : pyInt "0" = some (0 : Int) := by decide
      rw [h0'] at this
      simp at this
      omega
  · refine ⟨⟨none, if r ≠ 0 then some 0 else none⟩, ?_, fun hcontra => absurd rfl hcontra, ?_⟩
    · simp [modify_workload, hk, hr]
    · simp only [applyPatch]
      intro hcontra
      simp only [Option.some.injEq] at hcontra
      subst hcontra
      have h0' : pyInt "0" = some (0 : Int) := by decide
      rw [h0'] at hk
      simp at hk
      exact h0 hk.symm

theorem down_keeps_nonzero_saved_witness :
    (⟨0, some "5", []⟩ : Workload).savedReplicas = some "5" ∧
    pyInt "5" = some 5 ∧ (5 : Int) ≠ 0 ∧
    (∃ p, modify_workload NamespaceAction.DOWN ⟨0, some "5", []⟩ = some p ∧
      (p.ann ≠ none → 0 < (⟨0, some "5", []⟩ : Workload).replicas) ∧
      (applyPatch ⟨0, some "5", []⟩ p).savedReplicas ≠ some "0") :=
  ⟨rfl, by decide, by decide,
    down_keeps_nonzero_saved ⟨0, some "5", []⟩ "5" 5 rfl (by decide) (by decide)⟩

/-- Claim C5: for every workload with `currentReplicas == 0` and no
saved-replicas annotation, DOWN writes the annotation value `"0"`, and
every subsequent UP on the result is a no-op with an empty patch and
desired replicas 0 (the result is a fixed point of UP), so the workload
is never restored. -/
theorem down_stamps_zero_up_noop (w : Workload) (h0 : w.replicas = 0)
    (h1 : w.savedReplicas = none) :
    step NamespaceAction.DOWN w = some ⟨0, some "0", w.containers⟩ ∧
    modify_workload NamespaceAction.UP ⟨0, some "0", w.containers⟩ = some ⟨none, none⟩ ∧
    step NamespaceAction.UP ⟨0, some "0", w.containers⟩ = some ⟨0, some "0", w.containers⟩ := by
  obtain ⟨r, a, c⟩ := w
  simp only at h0 h1
  subst h0; subst h1
  refine ⟨?_, ?_, ?_⟩
  · show step NamespaceAction.DOWN ⟨0, none, c⟩ = some ⟨0, some "0", c⟩
    have hz : str_of_int 0 = "0" := by decide
    simp [step, modify_workload, applyPatch, hz]
  · have hz : pyInt "0" = some (0 : Int) := by decide
    simp [modify_workload, hz]
  · have hz : pyInt "0" = some (0 : Int) := by decide
    simp [step, modify_workload, applyPatch, hz]

theorem down_stamps_zero_up_noop_witness :
    (⟨0, none, []⟩ : Workload).replicas = 0 ∧
    (⟨0, none, []⟩ : Workload).savedReplicas = none ∧
    (step NamespaceAction.DOWN ⟨0, none, []⟩ = some ⟨0, some "0", []⟩ ∧
     modify_workload NamespaceAction.UP ⟨0, some "0", []⟩ = some ⟨none, none⟩ ∧
     step NamespaceAction.UP ⟨0, some "0", []⟩ = some ⟨0, some "0", []⟩) :=
  ⟨rfl, rfl, down_stamps_zero_up_noop ⟨0, none, []⟩ rfl rfl⟩

/-- Claim C6, counterexample: UP on a running workload is not always a
no-op — with `currentReplicas = 3` and the malformed annotation `"abc"`,
line 174's `int("abc")` raises before any patch is built, so the call
crashes (`none`) instead of producing the empty patch. -/
theorem up_running_noop_cex :
    modify_workload NamespaceAction.UP ⟨3, some "abc", []⟩ = none ∧
    modify_workload NamespaceAction.UP ⟨3, some "abc", []⟩ ≠ some ⟨none, none⟩ := by decide

/-- Claim C6, amended: for every workload with `currentReplicas > 0` whose
saved-replicas annotation is absent or parses as an integer, UP is a
no-op: the patch exists, is empty (so the external patch client is not
invoked), and applying it leaves the workload unchanged. -/
theorem up_running_noop (w : Workload) (h0 : 0 < w.replicas)
    (hp : w.savedReplicas.all (fun v => (pyInt v).isSome) = true) :
    ∃ p, modify_workload NamespaceAction.UP w = some p ∧
      p.isEmpty = true ∧ applyPatch w p = w := by
  obtain ⟨r, a, c⟩ := w
  simp only at h0 hp
  refine ⟨⟨none, none⟩, ?_, rfl, rfl⟩
  cases a with
  | none => simp [modify_workload, h0.ne, h0.ne']
  | some v =>
    simp only [Option.all_some] at hp
    obtain ⟨k, hk⟩ := Option.isSome_iff_exists.mp hp
    simp [modify_workload, hk, h0.ne, h0.ne']

theorem up_running_noop_witness :
    0 < (⟨2, some "7", []⟩ : Workload).replicas ∧
    ((⟨2, some "7", []⟩ : Workload).savedReplicas.all (fun v => (pyInt v).isSome) = true) ∧
    (∃ p, modify_workload NamespaceAction.UP ⟨2, some "7", []⟩ = some p ∧
      p.isEmpty = true ∧ applyPatch ⟨2, some "7", []⟩ p = ⟨2, some "7", []⟩) :=
  ⟨by decide, by decide, up_running_noop ⟨2, some "7", []⟩ (by decide) (by decide)⟩

/-- Claim C10: the UP transition never constructs a metadata/annotation
patch — whenever `modify_workload` with action UP returns a patch at all,
its annotation part is absent and the saved-replicas annotation of the
patched workload is exactly the one it started with, so a stale restore
value persists after a scale-up. -/
theorem up_preserves_saved (w : Workload) (p : WorkloadPatch)
    (h : modify_workload NamespaceAction.UP w = some p) :
    p.ann = none ∧ (applyPatch w p).savedReplicas = w.savedReplicas := by
  rw [modify_workload] at h
  cases hm : (match w.savedReplicas with | some s => pyInt s | none => some 1) with
  | none => rw [hm] at h; cases h
  | some b =>
    rw [hm] at h
    simp only [Option.some.injEq] at h
    have hann : p.ann = none := by
      rw [← h]
      simp
    refine ⟨hann, ?_⟩
    rw [applyPatch, hann]

theorem up_preserves_saved_witness :
    modify_workload NamespaceAction.UP ⟨0, some "4", []⟩ = some ⟨none, some 4⟩ ∧
    ((⟨none, some 4⟩ : WorkloadPatch).ann = none ∧
      (applyPatch ⟨0, some "4", []⟩ ⟨none, some 4⟩).savedReplicas =
        (⟨0, some "4", []⟩ : Workload).savedReplicas) :=
  ⟨by decide, up_preserves_saved ⟨0, some "4", []⟩ ⟨none, some 4⟩ (by decide)⟩

/-! ## NamespaceResolver: `resolve_namespaces` -/

/-- One regex atom against one character: `'.'` matches any character,
any other pattern character matches itself. -/
def charMatch (p c : Char) : Bool := p = '.' || p = c

/-- Full-string matching for the regex fragment the namespace patterns
use: literal characters, `'.'`, and `'*'` applied to the preceding atom.
`reMatch p s` holds iff the whole of `s` matches the whole of `p` — the
semantics of `re.compile(f"^{p}$").match(s)` on this fragment. -/
def reMatch : List Char → List Char → Bool
  | [], s => s.isEmpty
  | p :: '*' :: ps, s =>
    (List.range (s.length + 1)).any fun k =>
      ((s.take k).all fun c => charMatch p c) && reMatch ps (s.drop k)
  | p :: ps, s =>
    match s with
    | [] => false
    | c :: cs => charMatch p c && reMatch ps cs

/-- `compiled_pattern.match(n)` for `compiled_pattern = re.compile(f"^{pattern}$")`,
on the modelled regex fragment. -/
def reFullMatch (pattern n : String) : Bool := reMatch pattern.data n.data

/-- `resolve_namespaces(namespaces)` from the source: given the existing
namespace names (`all_namespaces`, in cluster-listing order), loop over
the patterns, appending for each the names that fully match it. -/
def resolve_namespaces (all_namespaces : List String) (namespaces : List String) : List String :=
  namespaces.foldl
    (fun resolved pattern => resolved ++ all_namespaces.filter fun n => reFullMatch pattern n)
    []

/-- The spec's description of the resolver: the concatenation, in pattern
order, of the per-pattern match lists, each in cluster-listing order,
with no deduplication. -/
def resolveSpec (all_namespaces : List String) (namespaces : List String) : List String :=
  namespaces.flatMap fun pattern => all_namespaces.filter fun n => reFullMatch pattern n

theorem resolve_foldl (all pats acc : List String) :
    pats.foldl (fun resolved pattern => resolved ++ all.filter fun n => reFullMatch pattern n) acc
      = acc ++ resolveSpec all pats := by
  induction pats generalizing acc with
  | nil => simp [resolveSpec]
  | cons p ps ih => simp [resolveSpec, List.foldl_cons, ih, List.flatMap_cons, List.append_assoc]

/-- Claim C7: `resolve_namespaces` returns the concatenation, in pattern
order, of the existing namespace names fully matching each pattern in
cluster-listing order, with no deduplication: a namespace occurring once
in the listing and matched by `k` patterns appears `k` times, and the
spec's worked example resolves with the duplicate. -/
theorem resolve_namespaces_concat :
    (∀ all pats, resolve_namespaces all pats = resolveSpec all pats) ∧
    (∀ all pats n, (resolve_namespaces all pats).count n
        = (pats.filter fun p => reFullMatch p n).length * all.count n) ∧
    resolve_namespaces ["team-a-dev", "team-a-prod", "team-b"] ["team-a-.*", "team-a-prod"]
      = ["team-a-dev", "team-a-prod", "team-a-prod"] := by
  have hresolve : ∀ all pats, resolve_namespaces all pats = resolveSpec all pats :=
    fun all pats => by rw [resolve_namespaces, resolve_foldl, List.nil_append]
  refine ⟨hresolve, ?_, by decide⟩
  intro all pats n
  rw [hresolve]
  induction pats with
  | nil => simp [resolveSpec]
  | cons p ps ih =>
    have hcons : resolveSpec all (p :: ps)
        = (all.filter fun m => reFullMatch p m) ++ resolveSpec all ps := by
      rw [resolveSpec, List.flatMap_cons]; rfl
    rw [hcons, List.count_append, ih]
    by_cases hq : reFullMatch p n
    · rw [List.count_filter hq, List.filter_cons, if_pos hq]
      rw [List.length_cons]
      ring
    · have hzero : (all.filter fun m => reFullMatch p m).count n = 0 := by
        rw [List.count_eq_zero]
        intro hmem
        exact absurd (List.mem_filter.mp hmem).2 hq
      rw [hzero, List.filter_cons, if_neg hq]
      omega

/-! ## StateAggregator: `parse_quantity`, `sum`, `get_state` -/

/-- The exponent table of `kubernetes.utils.quantity.parse_quantity`. -/
def suffixExponent (c : Char) : Option Int :=
  if c = 'n' then some (-3)
  else if c = 'u' then some (-2)
  else if c = 'm' then some (-1)
  else if c = 'K' then some 1
  else if c = 'k' then some 1
  else if c = 'M' then some 2
  else if c = 'G' then some 3
  else if c = 'T' then some 4
  else if c = 'P' then some 5
  else if c = 'E' then some 6
  else none

/-- Python `Decimal(s)` for an unsigned decimal literal: digits with an
optional single decimal point, at least one digit overall. -/
def parseUnsignedDecimal (l : List Char) : Option ℚ :=
  let intPart := l.takeWhile fun c => c ≠ '.'
  match l.dropWhile fun c => c ≠ '.' with
  | [] => (digitsToNat intPart).map fun n => (n : ℚ)
  | _ :: frac =>
    if frac.any fun c => c = '.' then none
    else if intPart.isEmpty && frac.isEmpty then none
    else
      match digitsToNatCore intPart 0, digitsToNatCore frac 0 with
      | some i, some f => some ((i : ℚ) + (f : ℚ) / (10 : ℚ) ^ frac.length)
      | _, _ => none

/-- Python `Decimal(s)` on a stripped string, modelled for plain decimal
literals with an optional sign (scientific notation is out of the
modelled fragment); `none` is the raised `InvalidOperation`. -/
def parseDecimal (l : List Char) : Option ℚ :=
  match l with
  | '-' :: rest => (parseUnsignedDecimal rest).map Neg.neg
  | '+' :: rest => parseUnsignedDecimal rest
  | _ => parseUnsignedDecimal l

/-- `number * base ** exponent` for an integer exponent, over ℚ. -/
def applySuffix (base : ℚ) (e : Int) (n : ℚ) : ℚ :=
  if 0 ≤ e then n * base ^ e.toNat else n / base ^ (-e).toNat

/-- `kubernetes.utils.quantity.parse_quantity(s)` on a string: split a
binary (`…i`) or decimal suffix off the end, parse the rest as a Decimal,
and scale; `none` models the raised `ValueError`. -/
def parse_quantity (s : String) : Option ℚ :=
  match s.data.reverse with
  | 'i' :: c :: restRev =>
    (match suffixExponent c with
     | some e => (parseDecimal (pyStrip restRev.reverse)).map fun n => applySuffix 1024 e n
     | none => parseDecimal (pyStrip s.data))
  | c :: restRev =>
    (match suffixExponent c with
     | some e => (parseDecimal (pyStrip restRev.reverse)).map fun n => applySuffix 1000 e n
     | none => parseDecimal (pyStrip s.data))
  | [] => parseDecimal (pyStrip s.data)

/-- The loop body of the inner `sum` of `get_state`: accumulate
`replicas` per workload and, for every container with truthy requests,
`parse_quantity(requests.get(key, 0)) * replicas` for cpu and memory
(an absent key contributes `parse_quantity(0) = 0`). `none` models an
uncaught parse failure. -/
def sumContainers (replicas : Int) : List Container → ℚ → ℚ → Option (ℚ × ℚ)
  | [], cpu, memory => some (cpu, memory)
  | c :: cs, cpu, memory =>
    match c.requests with
    | none => sumContainers replicas cs cpu memory
    | some r =>
      match (match r.memory with | some q => parse_quantity q | none => some 0),
            (match r.cpu with | some q => parse_quantity q | none => some 0) with
      | some m, some cq =>
        sumContainers replicas cs (cpu + cq * (replicas : ℚ)) (memory + m * (replicas : ℚ))
      | _, _ => none

/-- The workload loop of the inner `sum` of `get_state`, with the three
running accumulators. -/
def sumWorkloadsAux : List Workload → Int → ℚ → ℚ → Option (Int × ℚ × ℚ)
  | [], replicas, cpu, memory => some (replicas, cpu, memory)
  | d :: ds, replicas, cpu, memory =>
    match sumContainers d.replicas d.containers cpu memory with
    | some (cpu', memory') => sumWorkloadsAux ds (replicas + d.replicas) cpu' memory'
    | none => none

/-- The inner `sum(workloads)` of `get_state`: total replicas, cpu and
memory requests of a workload list. -/
def sumRequests (workloads : List Workload) : Option (Int × ℚ × ℚ) :=
  sumWorkloadsAux workloads 0 0 0

/-- `NamespaceState` from `nsscheduler.data_models.internal`, as
`get_state` fills it: total pods, cpu and memory of a namespace. -/
structure NamespaceState where
  pods : Int
  cpu : ℚ
  memory : ℚ
deriving DecidableEq, Repr

/-- One iteration of the `get_state` loop for namespace `ns`: consult the
cache (`ns_state_cache` and `ns_state_cache_update_time` fused into one
map, as the source always writes them together), short-circuiting inside
TTL, otherwise list both kinds, aggregate, and store with the current
time. Returns the state, the updated cache, and whether listing calls
were made; `none` models an uncaught parse failure. -/
def get_state_ns (listDeps listSets : String → List Workload) (now : ℚ)
    (cache : String → Option (NamespaceState × ℚ)) (ns : String) :
    Option (NamespaceState × (String → Option (NamespaceState × ℚ)) × Bool) :=
  let fresh : Option (NamespaceState × (String → Option (NamespaceState × ℚ)) × Bool) :=
    match sumRequests (listDeps ns), sumRequests (listSets ns) with
    | some (d_replicas, d_cpu, d_memory), some (s_replicas, s_cpu, s_memory) =>
      let st : NamespaceState :=
        ⟨d_replicas + s_replicas, d_cpu + s_cpu, d_memory + s_memory⟩
      some (st, fun k => if k = ns then some (st, now) else cache k, true)
    | _, _ => none
  match cache ns with
  | some (st, t) => if t + 3 > now then some (st, cache, false) else fresh
  | none => fresh

/-- `get_state(namespaces)` from the source: resolve the patterns and run
the per-namespace loop, threading the cache and building the `state`
dict. -/
def get_state (listDeps listSets : String → List Workload) (now : ℚ)
    (all_namespaces namespaces : List String)
    (cache : String → Option (NamespaceState × ℚ)) :
    Option ((String → Option NamespaceState) × (String → Option (NamespaceState × ℚ))) :=
  (resolve_namespaces all_namespaces namespaces).foldl
    (fun acc ns =>
      match acc with
      | none => none
      | some (state, cache) =>
        match get_state_ns listDeps listSets now cache ns with
        | none => none
        | some (st, cache', _) =>
          some (fun k => if k = ns then some st else state k, cache'))
    (some (fun _ => none, cache))

/-- Claim C8: per resolved namespace in a `get_state` call — a cache entry
within TTL (3 s) is returned as-is with no listing call and no cache
write; a stale entry or a missing one triggers fresh listings, whose
aggregate is returned and stored in the cache with the current time. -/
theorem get_state_cache_ttl (listDeps listSets : String → List Workload) (now : ℚ)
    (cache : String → Option (NamespaceState × ℚ)) (ns : String) :
    (∀ st t, cache ns = some (st, t) → now - t < 3 →
      get_state_ns listDeps listSets now cache ns = some (st, cache, false)) ∧
    (∀ st t, cache ns = some (st, t) → ¬ now - t < 3 →
      ∀ d s, sumRequests (listDeps ns) = some d → sumRequests (listSets ns) = some s →
        get_state_ns listDeps listSets now cache ns =
          some (⟨d.1 + s.1, d.2.1 + s.2.1, d.2.2 + s.2.2⟩,
            (fun k => if k = ns then some (⟨d.1 + s.1, d.2.1 + s.2.1, d.2.2 + s.2.2⟩, now)
              else cache k), true)) ∧
    (cache ns = none →
      ∀ d s, sumRequests (listDeps ns) = some d → sumRequests (listSets ns) = some s →
        get_state_ns listDeps listSets now cache ns =
          some (⟨d.1 + s.1, d.2.1 + s.2.1, d.2.2 + s.2.2⟩,
            (fun k => if k = ns then some (⟨d.1 + s.1, d.2.1 + s.2.1, d.2.2 + s.2.2⟩, now)
              else cache k), true)) := by
  refine ⟨?_, ?_, ?_⟩
  · intro st t hc hlt
    simp only [get_state_ns, hc]
    rw [if_pos (by linarith)]
  · intro st t hc hge d s hd hs
    obtain ⟨dr, dc, dm⟩ := d
    obtain ⟨sr, sc, sm⟩ := s
    simp only [get_state_ns, hc, hd, hs]
    rw [if_neg (by intro hcontra; exact hge (by linarith))]
  · intro hc d s hd hs
    obtain ⟨dr, dc, dm⟩ := d
    obtain ⟨sr, sc, sm⟩ := s
    simp only [get_state_ns, hc, hd, hs]

theorem get_state_cache_ttl_witness :
    ((fun k => if k = "ns1" then some ((⟨1, 0, 0⟩ : NamespaceState), (0 : ℚ)) else none) "ns1"
        = some (⟨1, 0, 0⟩, 0)) ∧
    ((2 : ℚ) - 0 < 3) ∧
    get_state_ns (fun _ => []) (fun _ => []) 2
        (fun k => if k = "ns1" then some (⟨1, 0, 0⟩, 0) else none) "ns1"
      = some (⟨1, 0, 0⟩,
          (fun k => if k = "ns1" then some (⟨1, 0, 0⟩, 0) else none), false) :=
  ⟨rfl, by norm_num,
    (get_state_cache_ttl (fun _ => []) (fun _ => []) 2
        (fun k => if k = "ns1" then some (⟨1, 0, 0⟩, 0) else none) "ns1").1
      ⟨1, 0, 0⟩ 0 rfl (by norm_num)⟩

/-! ## Claim C9: the aggregation formula -/

/-- Does every requested quantity of the container parse? (The condition
under which `get_state`'s sum does not raise.) -/
def containerParses (c : Container) : Bool :=
  match c.requests with
  | none => true
  | some req =>
    (match req.cpu with | none => true | some q => (parse_quantity q).isSome) &&
    (match req.memory with | none => true | some q => (parse_quantity q).isSome)

/-- Does every requested quantity of every workload parse? -/
def quantitiesParse (ws : List Workload) : Bool :=
  ws.all fun w => w.containers.all containerParses

/-- The spec's per-container cpu request: the parsed quantity, absent
requests contributing zero. -/
def containerCpu (c : Container) : ℚ :=
  match c.requests with
  | none => 0
  | some req =>
    match req.cpu with
    | none => 0
    | some q => (parse_quantity q).getD 0

/-- The spec's per-container memory request: the parsed quantity, absent
requests contributing zero. -/
def containerMemory (c : Container) : ℚ :=
  match c.requests with
  | none => 0
  | some req =>
    match req.memory with
    | none => 0
    | some q => (parse_quantity q).getD 0

/-- The spec's `pods`: the sum of `replicas` over the listed workloads. -/
def specPods (ws : List Workload) : Int :=
  (ws.map fun w => w.replicas).sum

/-- The spec's `cpu`: the sum over every container of the parsed requested
quantity times that workload's replica count. -/
def specCpu (ws : List Workload) : ℚ :=
  (ws.map fun w => (w.containers.map containerCpu).sum * (w.replicas : ℚ)).sum

/-- The spec's `memory`, same shape as `specCpu`. -/
def specMemory (ws : List Workload) : ℚ :=
  (ws.map fun w => (w.containers.map containerMemory).sum * (w.replicas : ℚ)).sum

theorem requests_cpu_value (c : Container) (req : ResourceRequests)
    (hreq : c.requests = some req) (hp : containerParses c = true) :
    (match req.cpu with | some q => parse_quantity q | none => some 0)
      = some (containerCpu c) := by
  simp only [containerParses, hreq, Bool.and_eq_true] at hp
  cases hq : req.cpu with
  | none => simp [containerCpu, hreq, hq]
  | some q =>
    have h1 := hp.1
    rw [hq] at h1
    obtain ⟨v, hv⟩ := Option.isSome_iff_exists.mp h1
    simp [containerCpu, hreq, hq, hv]

theorem requests_memory_value (c : Container) (req : ResourceRequests)
    (hreq : c.requests = some req) (hp : containerParses c = true) :
    (match req.memory with | some q => parse_quantity q | none => some 0)
      = some (containerMemory c) := by
  simp only [containerParses, hreq, Bool.and_eq_true] at hp
  cases hq : req.memory with
  | none => simp [containerMemory, hreq, hq]
  | some q =>
    have h2 := hp.2
    rw [hq] at h2
    obtain ⟨v, hv⟩ := Option.isSome_iff_exists.mp h2
    simp [containerMemory, hreq, hq, hv]

theorem sumContainers_spec (replicas : Int) (cs : List Container) (cpu memory : ℚ)
    (h : cs.all containerParses = true) :
    sumContainers replicas cs cpu memory =
      some (cpu + (cs.map containerCpu).sum * (replicas : ℚ),
            memory + (cs.map containerMemory).sum * (replicas : ℚ)) := by
  induction cs generalizing cpu memory with
  | nil => simp [sumContainers]
  | cons c cs ih =>
    rw [List.all_cons, Bool.and_eq_true] at h
    obtain ⟨hc, hcs⟩ := h
    cases hreq : c.requests with
    | none =>
      simp only [sumContainers, hreq]
      rw [ih _ _ hcs]
      have hc0 : containerCpu c = 0 := by simp [containerCpu, hreq]
      have hm0 : containerMemory c = 0 := by simp [containerMemory, hreq]
      simp only [List.map_cons, List.sum_cons, hc0, hm0, Option.some.injEq, Prod.mk.injEq]
      constructor <;> ring
    | some req =>
      simp only [sumContainers, hreq]
      rw [requests_cpu_value c req hreq hc, requests_memory_value c req hreq hc]
      show sumContainers replicas cs (cpu + containerCpu c * (replicas : ℚ))
          (memory + containerMemory c * (replicas : ℚ)) = _
      rw [ih _ _ hcs]
      simp only [List.map_cons, List.sum_cons, Option.some.injEq, Prod.mk.injEq]
      constructor <;> ring

theorem sumWorkloadsAux_spec (ws : List Workload) (replicas : Int) (cpu memory : ℚ)
    (h : quantitiesParse ws = true) :
    sumWorkloadsAux ws replicas cpu memory =
      some (replicas + specPods ws, cpu + specCpu ws, memory + specMemory ws) := by
  induction ws generalizing replicas cpu memory with
  | nil => simp [sumWorkloadsAux, specPods, specCpu, specMemory]
  | cons w ws ih =>
    rw [quantitiesParse, List.all_cons, Bool.and_eq_true] at h
    obtain ⟨hw, hws⟩ := h
    simp only [sumWorkloadsAux]
    rw [sumContainers_spec w.replicas w.containers cpu memory hw]
    show sumWorkloadsAux ws (replicas + w.replicas)
        (cpu + (w.containers.map containerCpu).sum * (w.replicas : ℚ))
        (memory + (w.containers.map containerMemory).sum * (w.replicas : ℚ)) = _
    rw [ih _ _ _ hws]
    simp only [specPods, specCpu, specMemory, List.map_cons, List.sum_cons,
      Option.some.injEq, Prod.mk.injEq]
    refine ⟨by ring, by ring, by ring⟩

/-- Claim C9: whenever every requested quantity parses, `get_state`'s sum
returns exactly the spec's aggregate — `pods` the sum of replicas, and
cpu and memory the sums over every container of parsed quantity times the
workload's replica count, absent requests contributing zero. -/
theorem aggregate_requests (ws : List Workload) (h : quantitiesParse ws = true) :
    sumRequests ws = some (specPods ws, specCpu ws, specMemory ws) := by
  rw [sumRequests, sumWorkloadsAux_spec ws 0 0 0 h]
  simp

theorem aggregate_requests_witness :
    quantitiesParse [⟨3, none, [⟨some ⟨some "256Mi", some "500m"⟩⟩]⟩] = true ∧
    sumRequests [⟨3, none, [⟨some ⟨some "256Mi", some "500m"⟩⟩]⟩]
      = some (3, 3 / 2, 805306368) :=
  ⟨by decide,
    (aggregate_requests [⟨3, none, [⟨some ⟨some "256Mi", some "500m"⟩⟩]⟩] (by decide)).trans
      (by
        simp [specPods, specCpu, specMemory, containerCpu, containerMemory,
          parse_quantity, pyStrip, parseDecimal, parseUnsignedDecimal, digitsToNat,
          digitsToNatCore, digitVal, suffixExponent, applySuffix, isPySpace]
        norm_num)⟩
